import Mathlib

/-
Shallow embedding of the waste-management TUI in src/wmtui.go and
verification of the specification's claims about its form/list state machine.

The source file contains two variants of the program:
  * a textinput-based variant (the first part of wmtui.go, using
    bubbles/textinput and a focusIndex over five inputs), embedded in
    namespace TV below;
  * a string-input variant (the second part of wmtui.go, using a single
    input string and per-field inputmode values), embedded in namespace SV.

The embedding models the Elm-style Update functions on keyboard messages
(tea.KeyMsg, identified by their msg.String() value).  Database calls are
modelled by an explicit environment of store responses (Env) and every step
emits the list of store calls it performs, so that "no store interaction"
and "mutated only after a successful store operation" are statable.
Rendering (lipgloss styles, View), the tea.Cmd return values, and the
textinput focus/blur bookkeeping have no effect on the modelled state and
are not embedded.  Go slice indexing panics out of bounds, so every
operation that indexes a slice at a possibly-invalid position returns an
Option, with none standing for a runtime panic.

The float64 quantity is modelled as an exact rational: strconv.ParseFloat
is embedded on its plain decimal fragment (optional sign, digits with an
optional fraction part, optional decimal exponent), which covers every
quantity appearing in the specification; hexadecimal floats, inf/NaN
spellings, digit-group underscores and float64 overflow/rounding are
outside the model.
-/

set_option maxHeartbeats 1600000

namespace WMTui

/-- Waste-item record, as in the Go struct wasteItem (id, name, quantity,
wasteType, location, method).  The float64 quantity field is modelled as an
exact rational. -/
structure WasteItem where
  id : Int
  name : String
  quantity : Rat
  wasteType : String
  location : String
  method : String
deriving DecidableEq, Repr

/-- The zero value of the Go wasteItem struct. -/
def WasteItem.zero : WasteItem :=
  { id := 0, name := "", quantity := 0, wasteType := "", location := "", method := "" }

/-- The recoverable errors the program stores in model.err, identified by
their fmt.Errorf message: "failed to delete item", "failed to add item",
"invalid quantity entered" / "invalid quantity". -/
inductive WErr where
  | deleteFailed
  | addFailed
  | invalidQuantity
deriving DecidableEq, Repr

/-- Store responses for the single SQL call a step can make: the result of
db.Exec INSERT (together with LastInsertId) and of db.Exec DELETE.  The Go
error payloads are abstracted to Unit. -/
structure Env where
  insertRes : Except Unit Int
  deleteRes : Except Unit Unit

/-- A store call performed during a step: the INSERT with its five bound
values, or the DELETE with its bound id. -/
inductive StoreCall where
  | insert (name : String) (quantity : Rat) (wasteType location method : String)
  | delete (id : Int)
deriving DecidableEq, Repr

/-- Leading sign of a Go float literal: returns (isNegative, rest). -/
def parseSign : List Char → Bool × List Char
  | '+' :: r => (false, r)
  | '-' :: r => (true, r)
  | l => (false, l)

/-- Value of a list of decimal digit characters. -/
def digitsVal (l : List Char) : Nat :=
  l.foldl (fun a c => a * 10 + (c.toNat - 48)) 0

/-- Value of a parsed mantissa together with a decimal exponent part: the
rational mant * 10^(plus or minus digitsVal ed) / 10^scale, built as a
single fraction.  Fails when the exponent has no digits or trailing
characters remain. -/
def parseExpVal (mant : Int) (scale : Nat) (r : List Char) : Option Rat :=
  let (eneg, r1) := parseSign r
  let ed := r1.takeWhile Char.isDigit
  let r2 := r1.dropWhile Char.isDigit
  if ed = [] ∨ r2 ≠ [] then none
  else some (if eneg then mkRat mant (10 ^ (scale + digitsVal ed))
             else mkRat (mant * 10 ^ digitsVal ed) (10 ^ scale))

/-- Embedding of strconv.ParseFloat(s, 64) on the plain decimal fragment of
Go float syntax: [+-] digits [. digits] [(e or E) [+-] digits], with at
least one digit in the mantissa and the whole string consumed.  Returns the
exact rational value; none models a parse error. -/
def goParseFloat (s : String) : Option Rat :=
  let (neg, l1) := parseSign s.data
  let ip := l1.takeWhile Char.isDigit
  let l2 := l1.dropWhile Char.isDigit
  let (fp, l3) :=
    match l2 with
    | '.' :: r => (r.takeWhile Char.isDigit, r.dropWhile Char.isDigit)
    | _ => ([], l2)
  if ip = [] ∧ fp = [] then none
  else
    let mant : Int := digitsVal (ip ++ fp)
    let mant : Int := if neg then -mant else mant
    match l3 with
    | [] => some (mkRat mant (10 ^ fp.length))
    | 'e' :: r => parseExpVal mant fp.length r
    | 'E' :: r => parseExpVal mant fp.length r
    | _ => none

/-- Go slice read l[i] with an int index: none models the out-of-range
panic. -/
def goIndex {α : Type} (l : List α) (i : Int) : Option α :=
  if 0 ≤ i then l.get? i.toNat else none

/-- Go assignment l[len(l)-1] = x: none models the panic on an empty
slice. -/
def goSetLast {α : Type} (l : List α) (x : α) : Option (List α) :=
  match l with
  | [] => none
  | _ :: _ => some (l.dropLast ++ [x])

/-- Go field assignment l[len(l)-1].f = v, i.e. updating the last element
in place: none models the panic on an empty slice. -/
def goModifyLast {α : Type} (l : List α) (f : α → α) : Option (List α) :=
  match l.getLast? with
  | none => none
  | some x => some (l.dropLast ++ [f x])

/-- The inputmode enumeration shared (textually identically) by both
variants of wmtui.go: normal, addingName, addingQuantity, addingWasteType,
addingLocation, addingMethod. -/
inductive inputmode where
  | normal
  | addingName
  | addingQuantity
  | addingWasteType
  | addingLocation
  | addingMethod
deriving DecidableEq, Repr

/-- Key messages typed character by character: each character arrives as
its own single-character msg.String(). -/
def typeEvents (s : String) : List String :=
  s.data.map String.singleton

namespace SV

/-- Model of the string-input variant (second part of wmtui.go): item
list, list cursor (Go int), the single input string, the inputmode, and
the last error. -/
structure model where
  waste : List WasteItem
  cursor : Int
  input : String
  inputmode : inputmode
  err : Option WErr
deriving DecidableEq, Repr

/-- updateNormal of the string-input variant: quit keys, cursor moves
clamped by the guards cursor > 0 and cursor < len(waste)-1, entering add
mode, and delete of the item under the cursor (store first; on success
remove and re-clamp the cursor, on failure record the error only). -/
def updateNormal (env : Env) (m : model) (msg : String) :
    Option (model × List StoreCall) :=
  if msg = "ctrl+c" ∨ msg = "q" then some (m, [])
  else if msg = "up" ∨ msg = "k" then
    some (if 0 < m.cursor then ({ m with cursor := m.cursor - 1 }, []) else (m, []))
  else if msg = "down" ∨ msg = "j" then
    some (if m.cursor < (m.waste.length : Int) - 1 then
            ({ m with cursor := m.cursor + 1 }, [])
          else (m, []))
  else if msg = "a" then
    some ({ m with inputmode := .addingName, input := "" }, [])
  else if msg = "d" then
    if 0 < m.waste.length then
      match goIndex m.waste m.cursor with
      | none => none
      | some item =>
        match env.deleteRes with
        | .error _ => some ({ m with err := some .deleteFailed }, [.delete item.id])
        | .ok _ =>
          let waste' := m.waste.eraseIdx m.cursor.toNat
          some ({ m with
                  waste := waste',
                  cursor := if (waste'.length : Int) ≤ m.cursor then
                              (waste'.length : Int) - 1
                            else m.cursor },
                [.delete item.id])
    else some (m, [])
  else some (m, [])

/-- addWasteItem of the string-input variant: performs the INSERT; on
success assigns the returned id to the item and writes it back over
waste[len(waste)-1] (the write aliases the caller's slice).  The outer
Option models the panic of that write on an empty list; the Except is the
Go error return. -/
def addWasteItem (env : Env) (m : model) (item : WasteItem) :
    Option (Except Unit model × List StoreCall) :=
  let call := StoreCall.insert item.name item.quantity item.wasteType item.location item.method
  match env.insertRes with
  | .error e => some (.error e, [call])
  | .ok id =>
    match goSetLast m.waste { item with id := id } with
    | none => none
    | some w => some (.ok { m with waste := w }, [call])

/-- updateAddingText of the string-input variant: on enter, addingName
appends a fresh item carrying the typed name and moves to addingQuantity;
addingWasteType/addingLocation write the typed text into the last item and
advance; addingMethod writes the method, calls addWasteItem and returns to
normal whether or not the insert succeeded; the input string is cleared
after every enter.  esc returns to normal; any other key is appended to
the input string. -/
def updateAddingText (env : Env) (m : model) (msg : String) :
    Option (model × List StoreCall) :=
  if msg = "enter" then
    match m.inputmode with
    | .addingName =>
      some ({ m with
              waste := m.waste ++ [{ WasteItem.zero with name := m.input }],
              inputmode := .addingQuantity, input := "" }, [])
    | .addingWasteType =>
      match goModifyLast m.waste (fun it => { it with wasteType := m.input }) with
      | none => none
      | some w => some ({ m with waste := w, inputmode := .addingLocation, input := "" }, [])
    | .addingLocation =>
      match goModifyLast m.waste (fun it => { it with location := m.input }) with
      | none => none
      | some w => some ({ m with waste := w, inputmode := .addingMethod, input := "" }, [])
    | .addingMethod =>
      match goModifyLast m.waste (fun it => { it with method := m.input }) with
      | none => none
      | some w =>
        match w.getLast? with
        | none => none
        | some lastItem =>
          match addWasteItem env { m with waste := w } lastItem with
          | none => none
          | some (.error _, cs) =>
            some ({ m with waste := w, err := some .addFailed,
                           inputmode := .normal, input := "" }, cs)
          | some (.ok m2, cs) =>
            some ({ m2 with inputmode := .normal, input := "" }, cs)
    | _ => some ({ m with input := "" }, [])
  else if msg = "esc" then
    some ({ m with inputmode := .normal, input := "" }, [])
  else
    some ({ m with input := m.input ++ msg }, [])

/-- updateAddingQuantity of the string-input variant: on enter the input is
parsed with ParseFloat; on failure the invalid-quantity error is recorded
and the mode is unchanged; on success the quantity is written into the last
item, the mode advances to addingWasteType and err is reset to nil.  The
input string is cleared in both cases.  esc returns to normal; any other
key is appended to the input string. -/
def updateAddingQuantity (env : Env) (m : model) (msg : String) :
    Option (model × List StoreCall) :=
  if msg = "enter" then
    match goParseFloat m.input with
    | none => some ({ m with err := some .invalidQuantity, input := "" }, [])
    | some q =>
      match goModifyLast m.waste (fun it => { it with quantity := q }) with
      | none => none
      | some w =>
        some ({ m with waste := w, inputmode := .addingWasteType,
                       err := none, input := "" }, [])
  else if msg = "esc" then
    some ({ m with inputmode := .normal, input := "" }, [])
  else
    some ({ m with input := m.input ++ msg }, [])

/-- The Update dispatch of the string-input variant on key messages. -/
def Update (env : Env) (m : model) (msg : String) :
    Option (model × List StoreCall) :=
  match m.inputmode with
  | .normal => updateNormal env m msg
  | .addingQuantity => updateAddingQuantity env m msg
  | _ => updateAddingText env m msg

/-- Processing a sequence of key messages, threading the state and
accumulating the store calls; none models a panic at some step. -/
def run (env : Env) (m : model) : List String → Option (model × List StoreCall)
  | [] => some (m, [])
  | e :: es =>
    match Update env m e with
    | none => none
    | some (m', cs) =>
      match run env m' es with
      | none => none
      | some (m'', cs') => some (m'', cs ++ cs')

end SV

namespace TV

/-- The values of the five textinputs of the textinput variant, in order:
name, quantity, wasteType, location, method.  The Go code holds them in a
slice of length 5 fixed by initialModel; only the Value()/SetValue() text
is state of the modelled machine. -/
structure textFields where
  f0 : String
  f1 : String
  f2 : String
  f3 : String
  f4 : String
deriving DecidableEq, Repr

/-- All five field values empty, as after initialModel or SetValue(""). -/
def textFields.empty : textFields := ⟨"", "", "", "", ""⟩

/-- Model of the textinput variant (first part of wmtui.go): item list,
list cursor, the five input values, inputmode, last error, the cursor-blink
mode (a cursor.Mode int) and the focus index. -/
structure model where
  waste : List WasteItem
  cursor : Int
  inputs : textFields
  inputmode : inputmode
  err : Option WErr
  cursorMode : Int
  focusIndex : Int
deriving DecidableEq, Repr

/-- updateNormal of the textinput variant: quit keys; ctrl+r cycles
cursorMode over 0..2; tab/shift+tab/up/down cycle focusIndex over 0..5 with
wraparound (including the dead msg == "enter" check inside that branch,
kept as in the source); a enters adding mode; d deletes the item under the
cursor exactly as in the string-input variant.  Note that up/down fall into
the focus-cycling branch and never move the list cursor. -/
def updateNormal (env : Env) (m : model) (msg : String) :
    Option (model × List StoreCall) :=
  if msg = "ctrl+c" ∨ msg = "q" then some (m, [])
  else if msg = "ctrl+r" then
    let cm := m.cursorMode + 1
    some ({ m with cursorMode := if 2 < cm then 0 else cm }, [])
  else if msg = "tab" ∨ msg = "shift+tab" ∨ msg = "up" ∨ msg = "down" then
    if msg = "enter" ∧ m.focusIndex = 5 then some (m, [])
    else
      let f := if msg = "up" ∨ msg = "shift+tab" then m.focusIndex - 1 else m.focusIndex + 1
      some ({ m with focusIndex := if 5 < f then 0 else if f < 0 then 5 else f }, [])
  else if msg = "a" then
    some ({ m with inputmode := .addingName, focusIndex := 0 }, [])
  else if msg = "d" then
    if 0 < m.waste.length then
      match goIndex m.waste m.cursor with
      | none => none
      | some item =>
        match env.deleteRes with
        | .error _ => some ({ m with err := some .deleteFailed }, [.delete item.id])
        | .ok _ =>
          let waste' := m.waste.eraseIdx m.cursor.toNat
          some ({ m with
                  waste := waste',
                  cursor := if (waste'.length : Int) ≤ m.cursor then
                              (waste'.length : Int) - 1
                            else m.cursor },
                [.delete item.id])
    else some (m, [])
  else some (m, [])

/-- addWasteItem of the textinput variant: performs the INSERT; on success
assigns the returned id and writes the item over waste[len(waste)-1]
(never appending; none models the panic of that write on an empty
list). -/
def addWasteItem (env : Env) (m : model) (item : WasteItem) :
    Option (Except Unit model × List StoreCall) :=
  let call := StoreCall.insert item.name item.quantity item.wasteType item.location item.method
  match env.insertRes with
  | .error e => some (.error e, [call])
  | .ok id =>
    match goSetLast m.waste { item with id := id } with
    | none => none
    | some w => some (.ok { m with waste := w }, [call])

/-- submitWasteItem of the textinput variant: parse inputs[1] as a float
(failure records the invalid-quantity error and changes nothing else),
build the item from the five input values and call addWasteItem; on store
failure record the add error and keep mode, focusIndex and inputs; on
success go back to normal, clear all five inputs and reset focusIndex. -/
def submitWasteItem (env : Env) (m : model) :
    Option (model × List StoreCall) :=
  match goParseFloat m.inputs.f1 with
  | none => some ({ m with err := some .invalidQuantity }, [])
  | some q =>
    let newItem : WasteItem :=
      { id := 0, name := m.inputs.f0, quantity := q,
        wasteType := m.inputs.f2, location := m.inputs.f3, method := m.inputs.f4 }
    match addWasteItem env m newItem with
    | none => none
    | some (.error _, cs) => some ({ m with err := some .addFailed }, cs)
    | some (.ok m2, cs) =>
      some ({ m2 with inputmode := .normal, inputs := textFields.empty,
                      focusIndex := 0 }, cs)

/-- updateAdding of the textinput variant: enter advances focusIndex while
it is below the last input index and submits at the last one; esc returns
to normal and resets focusIndex; every other key is ignored (the text never
reaches the inputs because Update routes all key messages here). -/
def updateAdding (env : Env) (m : model) (msg : String) :
    Option (model × List StoreCall) :=
  if msg = "enter" then
    if m.focusIndex < (5 : Int) - 1 then
      some ({ m with focusIndex := m.focusIndex + 1 }, [])
    else submitWasteItem env m
  else if msg = "esc" then
    some ({ m with inputmode := .normal, focusIndex := 0 }, [])
  else some (m, [])

/-- The Update dispatch of the textinput variant on key messages: normal
goes to updateNormal, every adding mode to updateAdding. -/
def Update (env : Env) (m : model) (msg : String) :
    Option (model × List StoreCall) :=
  match m.inputmode with
  | .normal => updateNormal env m msg
  | _ => updateAdding env m msg

/-- Processing a sequence of key messages in the textinput variant. -/
def run (env : Env) (m : model) : List String → Option (model × List StoreCall)
  | [] => some (m, [])
  | e :: es =>
    match Update env m e with
    | none => none
    | some (m', cs) =>
      match run env m' es with
      | none => none
      | some (m'', cs') => some (m'', cs ++ cs')

end TV

/-- Concrete environment: the INSERT is answered with id 7, the DELETE
succeeds. -/
def envOK7 : Env := ⟨.ok 7, .ok ()⟩

/-- Concrete environment in which every store call fails. -/
def envAllFail : Env := ⟨.error (), .error ()⟩

/-- Concrete waste item used as test fixture. -/
def itemA : WasteItem := ⟨1, "A", 1, "T", "L", "M"⟩

/-- Second concrete waste item used as test fixture. -/
def itemB : WasteItem := ⟨2, "B", 2, "T", "L", "M"⟩

/- ### Helper lemmas -/

/-- A single-character key message is distinct from every multi-character
key name. -/
theorem singleton_ne_of_len {c : Char} {s : String} (h : s.length ≠ 1) :
    String.singleton c ≠ s := by
  intro he
  exact h (by rw [← he, String.length_singleton])

/-- Updating the last element of a list that ends in x rewrites only x. -/
theorem goModifyLast_concat {α : Type} (l : List α) (x : α) (f : α → α) :
    goModifyLast (l ++ [x]) f = some (l ++ [f x]) := by
  simp [goModifyLast, List.getLast?_concat, List.dropLast_concat]

/-- Writing over the last element of a list that ends in x replaces x. -/
theorem goSetLast_concat {α : Type} (l : List α) (x y : α) :
    goSetLast (l ++ [x]) y = some (l ++ [y]) := by
  cases l with
  | nil => simp [goSetLast]
  | cons h t =>
    simp only [goSetLast, List.cons_append]
    rw [← List.cons_append, List.dropLast_concat, List.cons_append]

/-- Appending a string given by its character list. -/
theorem str_mk_append (s : String) (l : List Char) :
    s ++ String.mk l = String.mk (s.data ++ l) := rfl

/-- The empty string is right neutral for append. -/
theorem str_append_empty (s : String) : s ++ "" = s := by
  apply String.ext
  simp [String.data_append]

/-- Reassociating one appended character into the character list. -/
theorem str_append_singleton_cons (s : String) (c : Char) (l : List Char) :
    (s ++ String.singleton c) ++ String.mk l = s ++ String.mk (c :: l) := by
  apply String.ext
  simp [String.data_append, String.singleton]

/-- In the string-input variant, a single typed character in any adding
mode is appended to the input string and nothing else happens. -/
theorem sv_char_step (env : Env) (m : SV.model) (ch : Char)
    (h : m.inputmode ≠ .normal) :
    SV.Update env m (String.singleton ch)
      = some ({ m with input := m.input ++ String.singleton ch }, []) := by
  have h1 : String.singleton ch ≠ "enter" := singleton_ne_of_len (by decide)
  have h2 : String.singleton ch ≠ "esc" := singleton_ne_of_len (by decide)
  obtain ⟨ws, c, i, im, er⟩ := m
  cases im <;>
    first
    | exact absurd rfl h
    | simp [SV.Update, SV.updateAddingText, SV.updateAddingQuantity, h1, h2]

/-- In the string-input variant, typing a character list in any adding
mode appends it to the input string and nothing else happens. -/
theorem sv_type_run (env : Env) (cs : List Char) :
    ∀ (m : SV.model), m.inputmode ≠ .normal →
    SV.run env m (cs.map String.singleton)
      = some ({ m with input := m.input ++ String.mk cs }, []) := by
  induction cs with
  | nil =>
    intro m h
    simp [SV.run, str_append_empty]
  | cons ch cs ih =>
    intro m h
    have hstep := sv_char_step env m ch h
    have hrun := ih { m with input := m.input ++ String.singleton ch } h
    simp only [List.map_cons, SV.run, hstep, hrun, List.nil_append]
    rw [str_append_singleton_cons]

/-- In the textinput variant, a typed character in any adding mode is
ignored entirely. -/
theorem tv_char_step (env : Env) (m : TV.model) (ch : Char)
    (h : m.inputmode ≠ .normal) :
    TV.Update env m (String.singleton ch) = some (m, []) := by
  have h1 : String.singleton ch ≠ "enter" := singleton_ne_of_len (by decide)
  have h2 : String.singleton ch ≠ "esc" := singleton_ne_of_len (by decide)
  obtain ⟨wt, ct, it, imt, ert, cmt, ft⟩ := m
  cases imt <;>
    first
    | exact absurd rfl h
    | simp [TV.Update, TV.updateAdding, h1, h2]

/-- In the textinput variant, typing any character list in any adding mode
leaves the state unchanged. -/
theorem tv_type_run (env : Env) (cs : List Char) :
    ∀ (m : TV.model), m.inputmode ≠ .normal →
    TV.run env m (cs.map String.singleton) = some (m, []) := by
  induction cs with
  | nil => intro m h; rfl
  | cons ch cs ih =>
    intro m h
    simp [SV.run, TV.run, tv_char_step env m ch h, ih m h]

/-- Processing an appended event list splits into the two runs, threading
the state and concatenating the emitted store calls. -/
theorem sv_run_append (env : Env) (xs ys : List String) :
    ∀ m, SV.run env m (xs ++ ys)
      = (SV.run env m xs).bind
          (fun p => (SV.run env p.1 ys).map (fun r => (r.1, p.2 ++ r.2))) := by
  induction xs with
  | nil =>
    intro m
    cases h : SV.run env m ys <;> simp [SV.run, h]
  | cons e xs ih =>
    intro m
    simp only [List.cons_append, SV.run, List.append_eq]
    cases hU : SV.Update env m e with
    | none => simp
    | some p =>
      obtain ⟨m1, cs⟩ := p
      simp only [ih m1]
      cases h2 : SV.run env m1 xs with
      | none => simp
      | some p2 =>
        obtain ⟨m2, cs2⟩ := p2
        cases h3 : SV.run env m2 ys with
        | none => simp [h3]
        | some p3 => simp [h3]

/-- Chaining two runs when the first emits no store call. -/
theorem sv_run_chain (env : Env) {m m1 m2 : SV.model} {xs ys : List String}
    {cs : List StoreCall}
    (h1 : SV.run env m xs = some (m1, []))
    (h2 : SV.run env m1 ys = some (m2, cs)) :
    SV.run env m (xs ++ ys) = some (m2, cs) := by
  rw [sv_run_append env xs ys m, h1]
  simp [h2]

/-- Processing an appended event list in the textinput variant splits into
the two runs. -/
theorem tv_run_append (env : Env) (xs ys : List String) :
    ∀ m, TV.run env m (xs ++ ys)
      = (TV.run env m xs).bind
          (fun p => (TV.run env p.1 ys).map (fun r => (r.1, p.2 ++ r.2))) := by
  induction xs with
  | nil =>
    intro m
    cases h : TV.run env m ys <;> simp [TV.run, h]
  | cons e xs ih =>
    intro m
    simp only [List.cons_append, TV.run, List.append_eq]
    cases hU : TV.Update env m e with
    | none => simp
    | some p =>
      obtain ⟨m1, cs⟩ := p
      simp only [ih m1]
      cases h2 : TV.run env m1 xs with
      | none => simp
      | some p2 =>
        obtain ⟨m2, cs2⟩ := p2
        cases h3 : TV.run env m2 ys with
        | none => simp [h3]
        | some p3 => simp [h3]

/-- Chaining two runs in the textinput variant when the first emits no
store call. -/
theorem tv_run_chain (env : Env) {m m1 m2 : TV.model} {xs ys : List String}
    {cs : List StoreCall}
    (h1 : TV.run env m xs = some (m1, []))
    (h2 : TV.run env m1 ys = some (m2, cs)) :
    TV.run env m (xs ++ ys) = some (m2, cs) := by
  rw [tv_run_append env xs ys m, h1]
  simp [h2]

/-- Confirm on the name field in the string-input variant: a fresh item
carrying the typed name is appended and the mode advances to the
quantity field. -/
theorem sv_enter_name (env : Env) (ws : List WasteItem) (c : Int) (i : String)
    (er : Option WErr) :
    SV.Update env ⟨ws, c, i, .addingName, er⟩ "enter"
      = some (⟨ws ++ [{ WasteItem.zero with name := i }], c, "", .addingQuantity, er⟩, []) := rfl

/-- Confirm on the quantity field with parseable text: the value is stored
in the last item, the error is cleared and the mode advances. -/
theorem sv_enter_quantity (env : Env) (ws : List WasteItem) (x : WasteItem)
    (c : Int) (i : String) (er : Option WErr) (q : Rat)
    (hq : goParseFloat i = some q) :
    SV.Update env ⟨ws ++ [x], c, i, .addingQuantity, er⟩ "enter"
      = some (⟨ws ++ [{ x with quantity := q }], c, "", .addingWasteType, none⟩, []) := by
  simp [SV.Update, SV.updateAddingQuantity, hq, goModifyLast_concat]

/-- Confirm on the wasteType field in the string-input variant. -/
theorem sv_enter_wasteType (env : Env) (ws : List WasteItem) (x : WasteItem)
    (c : Int) (i : String) (er : Option WErr) :
    SV.Update env ⟨ws ++ [x], c, i, .addingWasteType, er⟩ "enter"
      = some (⟨ws ++ [{ x with wasteType := i }], c, "", .addingLocation, er⟩, []) := by
  simp [SV.Update, SV.updateAddingText, goModifyLast_concat]

/-- Confirm on the location field in the string-input variant. -/
theorem sv_enter_location (env : Env) (ws : List WasteItem) (x : WasteItem)
    (c : Int) (i : String) (er : Option WErr) :
    SV.Update env ⟨ws ++ [x], c, i, .addingLocation, er⟩ "enter"
      = some (⟨ws ++ [{ x with location := i }], c, "", .addingMethod, er⟩, []) := by
  simp [SV.Update, SV.updateAddingText, goModifyLast_concat]

/-- Confirm on the method field with a successful store insert: the method
and the assigned id are written into the last item, the mode returns to
normal and the INSERT call with the five field values is emitted. -/
theorem sv_enter_method (env : Env) (ws : List WasteItem) (x : WasteItem)
    (c : Int) (i : String) (er : Option WErr) (id : Int)
    (hins : env.insertRes = .ok id) :
    SV.Update env ⟨ws ++ [x], c, i, .addingMethod, er⟩ "enter"
      = some (⟨ws ++ [{ x with method := i, id := id }], c, "", .normal, er⟩,
              [.insert x.name x.quantity x.wasteType x.location i]) := by
  simp [SV.Update, SV.updateAddingText, goModifyLast_concat, List.getLast?_concat,
        SV.addWasteItem, hins, goSetLast_concat]

/-- A single move key in the string-input variant keeps the list, input,
mode and error unchanged and moves the cursor within [0, len-1]. -/
theorem sv_move_step (env : Env) (ws : List WasteItem) (c : Int) (i : String)
    (er : Option WErr) (e : String)
    (he : e = "up" ∨ e = "k" ∨ e = "down" ∨ e = "j")
    (h0 : 0 ≤ c) (hl : c < ws.length) :
    ∃ c', SV.Update env ⟨ws, c, i, .normal, er⟩ e = some (⟨ws, c', i, .normal, er⟩, [])
      ∧ 0 ≤ c' ∧ c' < ws.length := by
  rcases he with h | h | h | h <;> subst h
  · by_cases hc : 0 < c
    · exact ⟨c - 1, by simp [SV.Update, SV.updateNormal, hc], by omega, by omega⟩
    · exact ⟨c, by simp [SV.Update, SV.updateNormal, hc], h0, hl⟩
  · by_cases hc : 0 < c
    · exact ⟨c - 1, by simp [SV.Update, SV.updateNormal, hc], by omega, by omega⟩
    · exact ⟨c, by simp [SV.Update, SV.updateNormal, hc], h0, hl⟩
  · by_cases hc : c < (ws.length : Int) - 1
    · exact ⟨c + 1, by simp [SV.Update, SV.updateNormal, hc], by omega, by omega⟩
    · exact ⟨c, by simp [SV.Update, SV.updateNormal, hc], h0, hl⟩
  · by_cases hc : c < (ws.length : Int) - 1
    · exact ⟨c + 1, by simp [SV.Update, SV.updateNormal, hc], by omega, by omega⟩
    · exact ⟨c, by simp [SV.Update, SV.updateNormal, hc], h0, hl⟩

/-- Any sequence of move keys in the string-input variant keeps the cursor
within [0, len-1] and changes nothing else. -/
theorem sv_moves_run (env : Env) (es : List String) (ws : List WasteItem) :
    ∀ (c : Int) (i : String) (er : Option WErr),
    (∀ e ∈ es, e = "up" ∨ e = "k" ∨ e = "down" ∨ e = "j") →
    0 ≤ c → c < ws.length →
    ∃ c', SV.run env ⟨ws, c, i, .normal, er⟩ es = some (⟨ws, c', i, .normal, er⟩, [])
      ∧ 0 ≤ c' ∧ c' < ws.length := by
  induction es with
  | nil => exact fun c i er _ h0 hl => ⟨c, rfl, h0, hl⟩
  | cons e es ih =>
    intro c i er hall h0 hl
    obtain ⟨c1, hstep, h1, h2⟩ :=
      sv_move_step env ws c i er e (hall e (by simp)) h0 hl
    obtain ⟨c', hrun, h3, h4⟩ := ih c1 i er (fun x hx => hall x (by simp [hx])) h1 h2
    exact ⟨c', by simp [SV.run, hstep, hrun], h3, h4⟩

/-- In the textinput variant, a normal-mode step that changes the item
list can only be a delete whose store call succeeded, and then it removes
the item at the cursor. -/
theorem tv_normal_waste_change (env : Env) (m m' : TV.model) (e : String)
    (cs : List StoreCall)
    (hstep : TV.updateNormal env m e = some (m', cs))
    (hne : m'.waste ≠ m.waste) :
    env.deleteRes = .ok () ∧ ∃ item, goIndex m.waste m.cursor = some item
      ∧ cs = [.delete item.id] ∧ m'.waste = m.waste.eraseIdx m.cursor.toNat := by
  simp only [TV.updateNormal] at hstep
  split_ifs at hstep <;>
    try (simp only [Option.some.injEq, Prod.mk.injEq] at hstep
         obtain ⟨hm, hc⟩ := hstep
         subst hm
         exact absurd rfl hne)
  all_goals
    cases hI : goIndex m.waste m.cursor with
    | none =>
      simp only [hI] at hstep
      exact Option.noConfusion hstep
    | some item =>
      simp only [hI] at hstep
      cases hD : env.deleteRes with
      | error u =>
        simp only [hD] at hstep
        simp only [Option.some.injEq, Prod.mk.injEq] at hstep
        obtain ⟨hm, hc⟩ := hstep
        subst hm
        exact absurd rfl hne
      | ok u =>
        simp only [hD] at hstep
        simp only [Option.some.injEq, Prod.mk.injEq] at hstep
        obtain ⟨hm, hc⟩ := hstep
        subst hm
        exact ⟨rfl, item, rfl, hc.symm, rfl⟩

/-- In the textinput variant, an adding-mode step that changes the item
list can only be a submission whose quantity parsed and whose store insert
succeeded, and then it emits the INSERT call with the five input
values. -/
theorem tv_adding_waste_change (env : Env) (m m' : TV.model) (e : String)
    (cs : List StoreCall)
    (hstep : TV.updateAdding env m e = some (m', cs))
    (hne : m'.waste ≠ m.waste) :
    ∃ id q, env.insertRes = .ok id ∧ goParseFloat m.inputs.f1 = some q
      ∧ cs = [.insert m.inputs.f0 q m.inputs.f2 m.inputs.f3 m.inputs.f4] := by
  simp only [TV.updateAdding] at hstep
  split_ifs at hstep <;>
    try (simp only [Option.some.injEq, Prod.mk.injEq] at hstep
         obtain ⟨hm, hc⟩ := hstep
         subst hm
         exact absurd rfl hne)
  all_goals
    simp only [TV.submitWasteItem] at hstep
  all_goals
    cases hq : goParseFloat m.inputs.f1 with
    | none =>
      simp only [hq] at hstep
      simp only [Option.some.injEq, Prod.mk.injEq] at hstep
      obtain ⟨hm, hc⟩ := hstep
      subst hm
      exact absurd rfl hne
    | some q =>
      simp only [hq] at hstep
      simp only [TV.addWasteItem] at hstep
      cases hins : env.insertRes with
      | error u =>
        simp only [hins] at hstep
        simp only [Option.some.injEq, Prod.mk.injEq] at hstep
        obtain ⟨hm, hc⟩ := hstep
        subst hm
        exact absurd rfl hne
      | ok id =>
        simp only [hins] at hstep
        cases hS : goSetLast m.waste
            { id := id, name := m.inputs.f0, quantity := q, wasteType := m.inputs.f2,
              location := m.inputs.f3, method := m.inputs.f4 } with
        | none =>
          simp only [hS] at hstep
          exact Option.noConfusion hstep
        | some w =>
          simp only [hS] at hstep
          simp only [Option.some.injEq, Prod.mk.injEq] at hstep
          obtain ⟨hm, hc⟩ := hstep
          exact ⟨id, q, rfl, rfl, hc.symm⟩

/-- In the string-input variant, a step that clears a present last error
must be a confirm in the quantity mode whose text parses. -/
theorem sv_err_cleared (env : Env) (m m' : SV.model) (e : String)
    (cs : List StoreCall) (x : WErr)
    (hstep : SV.Update env m e = some (m', cs))
    (hx : m.err = some x) (hn : m'.err = none) :
    m.inputmode = .addingQuantity ∧ e = "enter" ∧ (goParseFloat m.input).isSome := by
  obtain ⟨ws, c, i, im, er⟩ := m
  simp only at hx
  subst hx
  cases im with
  | normal =>
    exfalso
    simp only [SV.Update, SV.updateNormal] at hstep
    split_ifs at hstep <;>
      try (simp only [Option.some.injEq, Prod.mk.injEq] at hstep
           obtain ⟨hm, hc⟩ := hstep
           subst hm
           exact Option.noConfusion hn)
    all_goals
      cases hI : goIndex ws c with
      | none =>
        simp only [hI] at hstep
        exact Option.noConfusion hstep
      | some item =>
        simp only [hI] at hstep
        cases hD : env.deleteRes with
        | error u =>
          simp only [hD] at hstep
          simp only [Option.some.injEq, Prod.mk.injEq] at hstep
          obtain ⟨hm, hc⟩ := hstep
          subst hm
          exact Option.noConfusion hn
        | ok u =>
          simp only [hD] at hstep
          simp only [Option.some.injEq, Prod.mk.injEq] at hstep
          obtain ⟨hm, hc⟩ := hstep
          subst hm
          exact Option.noConfusion hn
  | addingQuantity =>
    by_cases he : e = "enter"
    · subst he
      refine ⟨rfl, rfl, ?_⟩
      cases hq : goParseFloat i with
      | none =>
        exfalso
        have hstep' : SV.updateAddingQuantity env ⟨ws, c, i, .addingQuantity, some x⟩ "enter"
            = some (m', cs) := hstep
        simp [SV.updateAddingQuantity, hq] at hstep'
        obtain ⟨hm, hc⟩ := hstep'
        subst hm
        exact Option.noConfusion hn
      | some q => simp
    · exfalso
      have hstep' : SV.updateAddingQuantity env ⟨ws, c, i, .addingQuantity, some x⟩ e
          = some (m', cs) := hstep
      by_cases hesc : e = "esc"
      · simp [SV.updateAddingQuantity, he, hesc] at hstep'
        obtain ⟨hm, hc⟩ := hstep'
        subst hm
        exact Option.noConfusion hn
      · simp [SV.updateAddingQuantity, he, hesc] at hstep'
        obtain ⟨hm, hc⟩ := hstep'
        subst hm
        exact Option.noConfusion hn
  | addingName =>
    exfalso
    have hstep' : SV.updateAddingText env ⟨ws, c, i, .addingName, some x⟩ e
        = some (m', cs) := hstep
    simp only [SV.updateAddingText] at hstep'
    split_ifs at hstep' <;>
      (simp only [Option.some.injEq, Prod.mk.injEq] at hstep'
       obtain ⟨hm, hc⟩ := hstep'
       subst hm
       exact Option.noConfusion hn)
  | addingWasteType =>
    exfalso
    have hstep' : SV.updateAddingText env ⟨ws, c, i, .addingWasteType, some x⟩ e
        = some (m', cs) := hstep
    simp only [SV.updateAddingText] at hstep'
    split_ifs at hstep' <;>
      try (simp only [Option.some.injEq, Prod.mk.injEq] at hstep'
           obtain ⟨hm, hc⟩ := hstep'
           subst hm
           exact Option.noConfusion hn)
    all_goals
      cases hL : goModifyLast ws (fun it => { it with wasteType := i }) with
      | none =>
        simp only [hL] at hstep'
        exact Option.noConfusion hstep'
      | some w =>
        simp only [hL] at hstep'
        simp only [Option.some.injEq, Prod.mk.injEq] at hstep'
        obtain ⟨hm, hc⟩ := hstep'
        subst hm
        exact Option.noConfusion hn
  | addingLocation =>
    exfalso
    have hstep' : SV.updateAddingText env ⟨ws, c, i, .addingLocation, some x⟩ e
        = some (m', cs) := hstep
    simp only [SV.updateAddingText] at hstep'
    split_ifs at hstep' <;>
      try (simp only [Option.some.injEq, Prod.mk.injEq] at hstep'
           obtain ⟨hm, hc⟩ := hstep'
           subst hm
           exact Option.noConfusion hn)
    all_goals
      cases hL : goModifyLast ws (fun it => { it with location := i }) with
      | none =>
        simp only [hL] at hstep'
        exact Option.noConfusion hstep'
      | some w =>
        simp only [hL] at hstep'
        simp only [Option.some.injEq, Prod.mk.injEq] at hstep'
        obtain ⟨hm, hc⟩ := hstep'
        subst hm
        exact Option.noConfusion hn
  | addingMethod =>
    exfalso
    have hstep' : SV.updateAddingText env ⟨ws, c, i, .addingMethod, some x⟩ e
        = some (m', cs) := hstep
    simp only [SV.updateAddingText] at hstep'
    split_ifs at hstep' <;>
      try (simp only [Option.some.injEq, Prod.mk.injEq] at hstep'
           obtain ⟨hm, hc⟩ := hstep'
           subst hm
           exact Option.noConfusion hn)
    all_goals
      cases hL : goModifyLast ws (fun it => { it with method := i }) with
      | none =>
        simp only [hL] at hstep'
        exact Option.noConfusion hstep'
      | some w =>
        simp only [hL] at hstep'
        cases hG : w.getLast? with
        | none =>
          simp only [hG] at hstep'
          exact Option.noConfusion hstep'
        | some lastItem =>
          simp only [hG] at hstep'
          simp only [SV.addWasteItem] at hstep'
          cases hins : env.insertRes with
          | error u =>
            simp only [hins] at hstep'
            simp only [Option.some.injEq, Prod.mk.injEq] at hstep'
            obtain ⟨hm, hc⟩ := hstep'
            subst hm
            exact Option.noConfusion hn
          | ok id =>
            simp only [hins] at hstep'
            cases hS : goSetLast w { lastItem with id := id } with
            | none =>
              simp only [hS] at hstep'
              exact Option.noConfusion hstep'
            | some w2 =>
              simp only [hS] at hstep'
              simp only [Option.some.injEq, Prod.mk.injEq] at hstep'
              obtain ⟨hm, hc⟩ := hstep'
              subst hm
              exact Option.noConfusion hn

/- ### Claim theorems -/

/-- C1, counterexample: in the textinput variant a completed, successful
form submission does not append the new item: with one item already in the
list, the five fields filled and the store assigning id 7, the submit step
leaves a list of length 1 in which the stored item has replaced the
previous last element (addWasteItem writes waste[len-1] = item instead of
appending).  The quantity "3.2" does parse, so the submission is the
claim's success scenario. -/
theorem spec_C1_counterexample :
    TV.Update envOK7
        ⟨[itemA], 0, ⟨"Oil", "3.2", "Liquid", "Bay1", "Incinerate"⟩, .addingName, none, 0, 4⟩
        "enter"
      = some (⟨[⟨7, "Oil", mkRat 16 5, "Liquid", "Bay1", "Incinerate"⟩], 0,
               TV.textFields.empty, .normal, none, 0, 0⟩,
              [.insert "Oil" (mkRat 16 5) "Liquid" "Bay1" "Incinerate"])
    ∧ goParseFloat "3.2" = some (mkRat 16 5) := by
  constructor <;> decide

/-- C2, counterexample: in the textinput variant, confirm on the focused
quantity field (focusIndex 1, text "abc") does not parse the text at all:
no error is set and the focus advances to index 2, although "abc" does not
parse as a float. -/
theorem spec_C2_counterexample :
    TV.Update envOK7 ⟨[], 0, ⟨"", "abc", "", "", ""⟩, .addingName, none, 0, 1⟩ "enter"
      = some (⟨[], 0, ⟨"", "abc", "", "", ""⟩, .addingName, none, 0, 2⟩, [])
    ∧ goParseFloat "abc" = none := by
  constructor <;> decide

/-- C3: in both variants, the d key in Browsing mode on a non-empty list
(with the cursor a valid index, as the invariant demands) issues the store
delete for the item at cursorIndex.  On store failure only the last error
changes (list, cursor, input, mode all exactly unchanged); on store
success the item is removed and the cursor is re-clamped to
min(cursorIndex, newLen - 1), which is -1 (no selection) when the list
becomes empty. -/
theorem spec_C3 (env : Env) (ms : SV.model) (mt : TV.model)
    (hs : ms.inputmode = .normal) (hs0 : 0 ≤ ms.cursor)
    (hsl : ms.cursor < ms.waste.length)
    (ht : mt.inputmode = .normal) (ht0 : 0 ≤ mt.cursor)
    (htl : mt.cursor < mt.waste.length) :
    ∃ its itt,
      goIndex ms.waste ms.cursor = some its ∧ goIndex mt.waste mt.cursor = some itt ∧
      (env.deleteRes = .error () →
        SV.Update env ms "d" = some ({ ms with err := some .deleteFailed }, [.delete its.id])
        ∧ TV.Update env mt "d" = some ({ mt with err := some .deleteFailed }, [.delete itt.id]))
      ∧ (env.deleteRes = .ok () →
        SV.Update env ms "d" = some
          ({ ms with waste := ms.waste.eraseIdx ms.cursor.toNat,
                     cursor := min ms.cursor (((ms.waste.eraseIdx ms.cursor.toNat).length : Int) - 1) },
           [.delete its.id])
        ∧ TV.Update env mt "d" = some
          ({ mt with waste := mt.waste.eraseIdx mt.cursor.toNat,
                     cursor := min mt.cursor (((mt.waste.eraseIdx mt.cursor.toNat).length : Int) - 1) },
           [.delete itt.id])) := by
  obtain ⟨ws, c, i, im, er⟩ := ms
  obtain ⟨wt, ct, it, imt, ert, cmt, ft⟩ := mt
  simp only at hs ht hs0 hsl ht0 htl
  subst hs
  subst ht
  have hsn : c.toNat < ws.length := by omega
  have htn : ct.toNat < wt.length := by omega
  have hslen : 0 < ws.length := by omega
  have htlen : 0 < wt.length := by omega
  have hidxs : goIndex ws c = some (ws.get ⟨c.toNat, hsn⟩) := by
    simp [goIndex, hs0, List.get?_eq_get hsn]
  have hidxt : goIndex wt ct = some (wt.get ⟨ct.toNat, htn⟩) := by
    simp [goIndex, ht0, List.get?_eq_get htn]
  have hclamps : (if ((ws.eraseIdx c.toNat).length : Int) ≤ c then
                    ((ws.eraseIdx c.toNat).length : Int) - 1 else c)
      = min c (((ws.eraseIdx c.toNat).length : Int) - 1) := by
    rw [List.length_eraseIdx_of_lt hsn]
    split_ifs <;> omega
  have hclampt : (if ((wt.eraseIdx ct.toNat).length : Int) ≤ ct then
                    ((wt.eraseIdx ct.toNat).length : Int) - 1 else ct)
      = min ct (((wt.eraseIdx ct.toNat).length : Int) - 1) := by
    rw [List.length_eraseIdx_of_lt htn]
    split_ifs <;> omega
  refine ⟨_, _, hidxs, hidxt, ?_, ?_⟩ <;> intro hdel
  · constructor <;>
      simp [SV.Update, SV.updateNormal, TV.Update, TV.updateNormal,
            hslen, htlen, hidxs, hidxt, hdel]
  · constructor
    · simp only [SV.Update, SV.updateNormal]
      simp only [hidxs, hdel, hslen]
      simp [hclamps]
    · simp only [TV.Update, TV.updateNormal]
      simp only [hidxt, hdel, htlen]
      simp [hclampt]

/-- C3 witness: the specification's own test: a two-item list with
cursorIndex 0 and a successful delete yields the one-element list holding
the former second item with cursorIndex still 0. -/
theorem spec_C3_witness :
    ∃ its itt,
      goIndex [itemA, itemB] 0 = some its ∧ goIndex [itemA, itemB] 0 = some itt ∧
      (envOK7.deleteRes = .error () →
        SV.Update envOK7 ⟨[itemA, itemB], 0, "", .normal, none⟩ "d"
          = some ({ waste := [itemA, itemB], cursor := 0, input := "",
                    inputmode := .normal, err := some .deleteFailed }, [.delete its.id])
        ∧ TV.Update envOK7 ⟨[itemA, itemB], 0, TV.textFields.empty, .normal, none, 0, 0⟩ "d"
          = some ({ waste := [itemA, itemB], cursor := 0, inputs := TV.textFields.empty,
                    inputmode := .normal, err := some .deleteFailed,
                    cursorMode := 0, focusIndex := 0 }, [.delete itt.id]))
      ∧ (envOK7.deleteRes = .ok () →
        SV.Update envOK7 ⟨[itemA, itemB], 0, "", .normal, none⟩ "d"
          = some ({ waste := ([itemA, itemB] : List WasteItem).eraseIdx ((0 : Int)).toNat,
                    cursor := min 0 (((([itemA, itemB] : List WasteItem).eraseIdx ((0 : Int)).toNat).length : Int) - 1),
                    input := "", inputmode := .normal, err := none }, [.delete its.id])
        ∧ TV.Update envOK7 ⟨[itemA, itemB], 0, TV.textFields.empty, .normal, none, 0, 0⟩ "d"
          = some ({ waste := ([itemA, itemB] : List WasteItem).eraseIdx ((0 : Int)).toNat,
                    cursor := min 0 (((([itemA, itemB] : List WasteItem).eraseIdx ((0 : Int)).toNat).length : Int) - 1),
                    inputs := TV.textFields.empty, inputmode := .normal, err := none,
                    cursorMode := 0, focusIndex := 0 }, [.delete itt.id])) :=
  spec_C3 envOK7 ⟨[itemA, itemB], 0, "", .normal, none⟩
    ⟨[itemA, itemB], 0, TV.textFields.empty, .normal, none, 0, 0⟩
    rfl (by decide) (by decide) rfl (by decide) (by decide)

/-- C4: in the string-input variant, any sequence of move-up/move-down
keys (up/k, down/j) processed in Browsing mode keeps cursorIndex inside
[0, len(list)-1] and changes nothing else (in particular it never wraps);
on an empty list, move-down is a complete no-op for every cursor value
reachable there (cursor at least -1).  In the textinput variant the
up/down keys fall into the focus-cycling branch and never change
cursorIndex or the list at all. -/
theorem spec_C4 (env : Env) (es : List String) (ws : List WasteItem) (c : Int)
    (i : String) (er : Option WErr)
    (hmoves : ∀ e ∈ es, e = "up" ∨ e = "k" ∨ e = "down" ∨ e = "j")
    (h0 : 0 ≤ c) (hl : c < ws.length) :
    (∃ c', SV.run env ⟨ws, c, i, .normal, er⟩ es = some (⟨ws, c', i, .normal, er⟩, [])
       ∧ 0 ≤ c' ∧ c' < ws.length)
    ∧ (∀ (c0 : Int) (i0 : String) (er0 : Option WErr), -1 ≤ c0 →
        SV.Update env ⟨[], c0, i0, .normal, er0⟩ "down" = some (⟨[], c0, i0, .normal, er0⟩, [])
        ∧ SV.Update env ⟨[], c0, i0, .normal, er0⟩ "j" = some (⟨[], c0, i0, .normal, er0⟩, []))
    ∧ (∀ (mt mt' : TV.model) (e : String) (cs : List StoreCall),
        mt.inputmode = .normal → (e = "up" ∨ e = "down") →
        TV.Update env mt e = some (mt', cs) →
        mt'.cursor = mt.cursor ∧ mt'.waste = mt.waste) := by
  refine ⟨sv_moves_run env es ws c i er hmoves h0 hl, ?_, ?_⟩
  · intro c0 i0 er0 hc0
    constructor <;> simp [SV.Update, SV.updateNormal] <;> omega
  · rintro ⟨wt, ct, it, imt, ert, cmt, ft⟩ mt' e cs hmode he hstep
    simp only at hmode
    subst hmode
    rcases he with h | h <;> subst h <;>
      simp [TV.Update, TV.updateNormal] at hstep <;>
      obtain ⟨h1, h2⟩ := hstep <;> subst h1 <;> simp

/-- C4 witness: a concrete run of three move keys over a two-item list
starting at cursor 0 stays in range, and the no-op and textinput clauses
at that instance. -/
theorem spec_C4_witness :
    (∃ c', SV.run envOK7 ⟨[itemA, itemB], 0, "", .normal, none⟩ ["down", "down", "up"]
       = some (⟨[itemA, itemB], c', "", .normal, none⟩, [])
       ∧ 0 ≤ c' ∧ c' < ([itemA, itemB] : List WasteItem).length)
    ∧ (∀ (c0 : Int) (i0 : String) (er0 : Option WErr), -1 ≤ c0 →
        SV.Update envOK7 ⟨[], c0, i0, .normal, er0⟩ "down" = some (⟨[], c0, i0, .normal, er0⟩, [])
        ∧ SV.Update envOK7 ⟨[], c0, i0, .normal, er0⟩ "j" = some (⟨[], c0, i0, .normal, er0⟩, []))
    ∧ (∀ (mt mt' : TV.model) (e : String) (cs : List StoreCall),
        mt.inputmode = .normal → (e = "up" ∨ e = "down") →
        TV.Update envOK7 mt e = some (mt', cs) →
        mt'.cursor = mt.cursor ∧ mt'.waste = mt.waste) :=
  spec_C4 envOK7 ["down", "down", "up"] [itemA, itemB] 0 "" none
    (by decide) (by decide) (by decide)

/-- C5, counterexample: in the string-input variant, when the store INSERT
fails on the final confirm, the state does not remain in form-filling
mode: the mode becomes normal (Browsing), the input text is cleared, and
the speculatively appended item is left in the list. -/
theorem spec_C5_counterexample :
    SV.Update envAllFail
        ⟨[⟨0, "Oil", mkRat 16 5, "Liquid", "Bay1", ""⟩], 0, "Incinerate", .addingMethod, none⟩
        "enter"
      = some (⟨[⟨0, "Oil", mkRat 16 5, "Liquid", "Bay1", "Incinerate"⟩], 0, "",
               .normal, some .addFailed⟩,
              [.insert "Oil" (mkRat 16 5) "Liquid" "Bay1" "Incinerate"]) := by
  decide

/-- C1, amended: in the string-input variant, completing the form from any
Browsing state (add, type the name, confirm, type a quantity that parses,
confirm, then type and confirm the wasteType, location and method) with a
store insert that succeeds yields: the five field values inserted into the
store (exactly one INSERT call with those values), the returned identifier
assigned to the new item, the item appended at the end of the in-memory
list, the mode back in Browsing with cursorIndex unchanged, and the input
field cleared.  In particular, from the empty list this produces exactly
the one new item. -/
theorem spec_C1 (env : Env) (ws : List WasteItem) (c : Int) (i : String)
    (er : Option WErr) (nm qs ty lc mth : String) (q : Rat) (id : Int)
    (hq : goParseFloat qs = some q) (hins : env.insertRes = .ok id) :
    SV.run env ⟨ws, c, i, .normal, er⟩
      ("a" :: typeEvents nm ++ ["enter"] ++ typeEvents qs ++ ["enter"]
        ++ typeEvents ty ++ ["enter"] ++ typeEvents lc ++ ["enter"]
        ++ typeEvents mth ++ ["enter"])
      = some (⟨ws ++ [⟨id, nm, q, ty, lc, mth⟩], c, "", .normal, none⟩,
              [.insert nm q ty lc mth]) := by
  have hmode : ∀ (w : List WasteItem) (c0 : Int) (i0 : String) (im : inputmode)
      (e0 : Option WErr), im ≠ .normal →
      (⟨w, c0, i0, im, e0⟩ : SV.model).inputmode ≠ .normal := fun _ _ _ _ _ h => h
  have h1 : SV.Update env ⟨ws, c, i, .normal, er⟩ "a"
      = some (⟨ws, c, "", .addingName, er⟩, []) := by
    simp [SV.Update, SV.updateNormal]
  have b1 : SV.run env ⟨ws, c, "", .addingName, er⟩ (typeEvents nm)
      = some (⟨ws, c, nm, .addingName, er⟩, []) :=
    sv_type_run env nm.data _ (hmode _ _ _ _ _ (by simp))
  have b2 : SV.run env ⟨ws, c, nm, .addingName, er⟩ ["enter"]
      = some (⟨ws ++ [{ WasteItem.zero with name := nm }], c, "", .addingQuantity, er⟩, []) := by
    simp [SV.run, sv_enter_name]
  have b3 : SV.run env ⟨ws ++ [{ WasteItem.zero with name := nm }], c, "", .addingQuantity, er⟩
        (typeEvents qs)
      = some (⟨ws ++ [{ WasteItem.zero with name := nm }], c, qs, .addingQuantity, er⟩, []) :=
    sv_type_run env qs.data _ (hmode _ _ _ _ _ (by simp))
  have b4 : SV.run env ⟨ws ++ [{ WasteItem.zero with name := nm }], c, qs, .addingQuantity, er⟩
        ["enter"]
      = some (⟨ws ++ [⟨0, nm, q, "", "", ""⟩], c, "", .addingWasteType, none⟩, []) := by
    simp [SV.run, sv_enter_quantity env ws _ c qs er q hq, WasteItem.zero]
  have b5 : SV.run env ⟨ws ++ [⟨0, nm, q, "", "", ""⟩], c, "", .addingWasteType, none⟩
        (typeEvents ty)
      = some (⟨ws ++ [⟨0, nm, q, "", "", ""⟩], c, ty, .addingWasteType, none⟩, []) :=
    sv_type_run env ty.data _ (hmode _ _ _ _ _ (by simp))
  have b6 : SV.run env ⟨ws ++ [⟨0, nm, q, "", "", ""⟩], c, ty, .addingWasteType, none⟩ ["enter"]
      = some (⟨ws ++ [⟨0, nm, q, ty, "", ""⟩], c, "", .addingLocation, none⟩, []) := by
    simp [SV.run, sv_enter_wasteType]
  have b7 : SV.run env ⟨ws ++ [⟨0, nm, q, ty, "", ""⟩], c, "", .addingLocation, none⟩
        (typeEvents lc)
      = some (⟨ws ++ [⟨0, nm, q, ty, "", ""⟩], c, lc, .addingLocation, none⟩, []) :=
    sv_type_run env lc.data _ (hmode _ _ _ _ _ (by simp))
  have b8 : SV.run env ⟨ws ++ [⟨0, nm, q, ty, "", ""⟩], c, lc, .addingLocation, none⟩ ["enter"]
      = some (⟨ws ++ [⟨0, nm, q, ty, lc, ""⟩], c, "", .addingMethod, none⟩, []) := by
    simp [SV.run, sv_enter_location]
  have b9 : SV.run env ⟨ws ++ [⟨0, nm, q, ty, lc, ""⟩], c, "", .addingMethod, none⟩
        (typeEvents mth)
      = some (⟨ws ++ [⟨0, nm, q, ty, lc, ""⟩], c, mth, .addingMethod, none⟩, []) :=
    sv_type_run env mth.data _ (hmode _ _ _ _ _ (by simp))
  have b10 : SV.run env ⟨ws ++ [⟨0, nm, q, ty, lc, ""⟩], c, mth, .addingMethod, none⟩ ["enter"]
      = some (⟨ws ++ [⟨id, nm, q, ty, lc, mth⟩], c, "", .normal, none⟩,
              [.insert nm q ty lc mth]) := by
    simp [SV.run, sv_enter_method env ws _ c mth none id hins]
  have hbig := sv_run_chain env (sv_run_chain env (sv_run_chain env (sv_run_chain env
    (sv_run_chain env (sv_run_chain env (sv_run_chain env (sv_run_chain env b1 b2) b3) b4)
      b5) b6) b7) b8) b9
  have hall := sv_run_chain env hbig b10
  simp only [List.append_assoc, List.singleton_append, List.cons_append] at hall ⊢
  simp only [SV.run, h1]
  rw [hall]
  rfl

/-- C1 witness: the specification's end-to-end test: from the empty list,
add and fill name "Oil", quantity "3.2", wasteType "Liquid", location
"Bay1", method "Incinerate"; the store assigns id 7; the result is
Browsing with exactly that one item, cursorIndex unchanged and the input
cleared. -/
theorem spec_C1_witness :
    goParseFloat "3.2" = some (mkRat 16 5)
    ∧ SV.run envOK7 ⟨[], 0, "", .normal, none⟩
        ("a" :: typeEvents "Oil" ++ ["enter"] ++ typeEvents "3.2" ++ ["enter"]
          ++ typeEvents "Liquid" ++ ["enter"] ++ typeEvents "Bay1" ++ ["enter"]
          ++ typeEvents "Incinerate" ++ ["enter"])
      = some (⟨[⟨7, "Oil", mkRat 16 5, "Liquid", "Bay1", "Incinerate"⟩], 0, "", .normal, none⟩,
              [.insert "Oil" (mkRat 16 5) "Liquid" "Bay1" "Incinerate"]) :=
  ⟨by decide,
   by
    have := spec_C1 envOK7 [] 0 "" none "Oil" "3.2" "Liquid" "Bay1" "Incinerate"
      (mkRat 16 5) 7 (by decide) rfl
    simpa using this⟩

/-- C6: entering form mode and then cancelling with esc, whatever
characters were typed in between, returns the state to Browsing with the
field values empty and no store interaction; the list, cursor and error
are untouched.  In the string-input variant the input string ends empty;
in the textinput variant the (always empty) inputs stay empty and
focusIndex is reset to 0. -/
theorem spec_C6 (env : Env) (s : String) (ws : List WasteItem) (c : Int)
    (i : String) (er : Option WErr) (cm f : Int) :
    SV.run env ⟨ws, c, i, .normal, er⟩ ("a" :: typeEvents s ++ ["esc"])
      = some (⟨ws, c, "", .normal, er⟩, [])
    ∧ TV.run env ⟨ws, c, TV.textFields.empty, .normal, er, cm, f⟩
        ("a" :: typeEvents s ++ ["esc"])
      = some (⟨ws, c, TV.textFields.empty, .normal, er, cm, 0⟩, []) := by
  constructor
  · have h1 : SV.Update env ⟨ws, c, i, .normal, er⟩ "a"
        = some (⟨ws, c, "", .addingName, er⟩, []) := by
      simp [SV.Update, SV.updateNormal]
    have b1 : SV.run env ⟨ws, c, "", .addingName, er⟩ (typeEvents s)
        = some (⟨ws, c, s, .addingName, er⟩, []) :=
      sv_type_run env s.data ⟨ws, c, "", .addingName, er⟩ (fun h => by simp at h)
    have b2 : SV.run env ⟨ws, c, s, .addingName, er⟩ ["esc"]
        = some (⟨ws, c, "", .normal, er⟩, []) := by
      simp [SV.run, SV.Update, SV.updateAddingText]
    have hall := sv_run_chain env b1 b2
    show SV.run env ⟨ws, c, i, .normal, er⟩ ("a" :: (typeEvents s ++ ["esc"])) = _
    simp [SV.run, h1, hall]
  · have h1 : TV.Update env ⟨ws, c, TV.textFields.empty, .normal, er, cm, f⟩ "a"
        = some (⟨ws, c, TV.textFields.empty, .addingName, er, cm, 0⟩, []) := by
      simp [TV.Update, TV.updateNormal]
    have b1 : TV.run env ⟨ws, c, TV.textFields.empty, .addingName, er, cm, 0⟩ (typeEvents s)
        = some (⟨ws, c, TV.textFields.empty, .addingName, er, cm, 0⟩, []) :=
      tv_type_run env s.data _ (fun h => by simp at h)
    have b2 : TV.run env ⟨ws, c, TV.textFields.empty, .addingName, er, cm, 0⟩ ["esc"]
        = some (⟨ws, c, TV.textFields.empty, .normal, er, cm, 0⟩, []) := by
      simp [TV.run, TV.Update, TV.updateAdding]
    have hall := tv_run_chain env b1 b2
    show TV.run env ⟨ws, c, TV.textFields.empty, .normal, er, cm, f⟩
        ("a" :: (typeEvents s ++ ["esc"])) = _
    simp [TV.run, h1, hall]

/-- C2, amended: in the string-input variant, confirm on the quantity
field parses the input with ParseFloat.  On parse failure the
invalid-quantity error is set and the mode stays on the quantity field (no
advance; the typed text is cleared as in the source); on parse success the
last error is cleared (set to none), the parsed value is stored in the
last item and the focus advances to the wasteType field. -/
theorem spec_C2 (env : Env) (m : SV.model) (hmode : m.inputmode = .addingQuantity) :
    (goParseFloat m.input = none →
      SV.Update env m "enter"
        = some ({ m with err := some .invalidQuantity, input := "" }, []))
    ∧ (∀ q, goParseFloat m.input = some q → m.waste ≠ [] →
      ∃ w, goModifyLast m.waste (fun it => { it with quantity := q }) = some w ∧
        SV.Update env m "enter"
          = some ({ m with waste := w, inputmode := .addingWasteType,
                           err := none, input := "" }, [])) := by
  obtain ⟨ws, c, i, im, er⟩ := m
  simp only at hmode ⊢
  subst hmode
  constructor
  · intro hp
    simp [SV.Update, SV.updateAddingQuantity, hp]
  · intro q hp hne
    have hlast := List.getLast?_eq_getLast ws hne
    refine ⟨ws.dropLast ++ [{ ws.getLast hne with quantity := q }], ?_, ?_⟩
    · simp [goModifyLast, hlast]
    · simp [SV.Update, SV.updateAddingQuantity, hp, goModifyLast, hlast]

/-- C2 witness: the specification's instances: quantity text "abc" fails
to parse, sets the invalid-quantity error and stays on the quantity
field; quantity text "12.5" parses to 12.5 and advances with the error
cleared. -/
theorem spec_C2_witness :
    (goParseFloat "abc" = none →
      SV.Update envOK7 ⟨[itemA], 0, "abc", .addingQuantity, none⟩ "enter"
        = some (({ (⟨[itemA], 0, "abc", .addingQuantity, none⟩ : SV.model) with
                   err := some .invalidQuantity, input := "" }), []))
    ∧ (∃ w, goModifyLast [itemA] (fun it => { it with quantity := mkRat 25 2 }) = some w ∧
        SV.Update envOK7 ⟨[itemA], 0, "12.5", .addingQuantity, none⟩ "enter"
          = some ({ (⟨[itemA], 0, "12.5", .addingQuantity, none⟩ : SV.model) with
                    waste := w, inputmode := .addingWasteType,
                    err := none, input := "" }, [])) :=
  ⟨(spec_C2 envOK7 ⟨[itemA], 0, "abc", .addingQuantity, none⟩ rfl).1,
   (spec_C2 envOK7 ⟨[itemA], 0, "12.5", .addingQuantity, none⟩ rfl).2
     (mkRat 25 2) (by decide) (by decide)⟩

/-- C5, amended: in the textinput variant, when the quantity text parses
but the store INSERT fails on submission, the insert-failure error is set
and everything else is retained: the state stays in the same adding mode
on the last field (focusIndex 4) with all five entered input values and
the item list unchanged, so the user may retry or cancel. -/
theorem spec_C5 (env : Env) (m : TV.model) (q : Rat)
    (hmode : m.inputmode ≠ .normal) (hfoc : m.focusIndex = 4)
    (hq : goParseFloat m.inputs.f1 = some q) (hins : env.insertRes = .error ()) :
    TV.Update env m "enter"
      = some ({ m with err := some .addFailed },
              [.insert m.inputs.f0 q m.inputs.f2 m.inputs.f3 m.inputs.f4]) := by
  obtain ⟨wt, ct, it, imt, ert, cmt, ft⟩ := m
  simp only at hmode hfoc hq ⊢
  subst hfoc
  cases imt <;>
    first
    | exact absurd rfl hmode
    | simp [TV.Update, TV.updateAdding, TV.submitWasteItem, TV.addWasteItem, hq, hins]

/-- C5 witness: a concrete failing submission: filled fields, focus on the
last field, parseable quantity "3.2", failing store: the error is set and
mode, focus, inputs and list are unchanged. -/
theorem spec_C5_witness :
    TV.Update envAllFail
        ⟨[itemA], 0, ⟨"Oil", "3.2", "Liquid", "Bay1", "Incinerate"⟩, .addingName, none, 0, 4⟩
        "enter"
      = some ({ (⟨[itemA], 0, ⟨"Oil", "3.2", "Liquid", "Bay1", "Incinerate"⟩,
                  .addingName, none, 0, 4⟩ : TV.model) with err := some .addFailed },
              [.insert "Oil" (mkRat 16 5) "Liquid" "Bay1" "Incinerate"]) :=
  spec_C5 envAllFail
    ⟨[itemA], 0, ⟨"Oil", "3.2", "Liquid", "Bay1", "Incinerate"⟩, .addingName, none, 0, 4⟩
    (mkRat 16 5) (by decide) rfl (by decide) rfl

/-- C7, counterexample: in the string-input variant, confirming the name
field appends a new item to the in-memory list although no store call is
made (the emitted call list is empty and the environment would fail every
store call): the list is mutated before any store operation succeeds. -/
theorem spec_C7_counterexample :
    SV.run envAllFail ⟨[], 0, "", .normal, none⟩ ["a", "x", "enter"]
      = some (⟨[⟨0, "x", 0, "", "", ""⟩], 0, "", .addingQuantity, none⟩, []) := by
  decide

/-- C7, amended: in the textinput variant, a step that changes the item
list is either a delete whose store call succeeded (and it removes exactly
the item under the cursor) or a submission whose store insert succeeded
(and it emitted the INSERT call with the five input values); every other
step, and every step whose store call fails, leaves the list unchanged. -/
theorem spec_C7 (env : Env) (m m' : TV.model) (e : String) (cs : List StoreCall)
    (hstep : TV.Update env m e = some (m', cs)) (hne : m'.waste ≠ m.waste) :
    (env.deleteRes = .ok () ∧ ∃ item, goIndex m.waste m.cursor = some item
      ∧ cs = [.delete item.id] ∧ m'.waste = m.waste.eraseIdx m.cursor.toNat)
    ∨ (∃ id q, env.insertRes = .ok id ∧ goParseFloat m.inputs.f1 = some q
      ∧ cs = [.insert m.inputs.f0 q m.inputs.f2 m.inputs.f3 m.inputs.f4]) := by
  obtain ⟨wt, ct, it, imt, ert, cmt, ft⟩ := m
  cases imt
  case normal => exact Or.inl (tv_normal_waste_change env _ m' e cs hstep hne)
  all_goals exact Or.inr (tv_adding_waste_change env _ m' e cs hstep hne)

/-- C7 witness: a successful delete on a one-item list changes the list,
and the theorem attributes the change to the successful store delete. -/
theorem spec_C7_witness :
    (envOK7.deleteRes = .ok () ∧ ∃ item,
       goIndex ([itemA] : List WasteItem) 0 = some item
       ∧ ([StoreCall.delete 1] : List StoreCall) = [.delete item.id]
       ∧ ([] : List WasteItem) = ([itemA] : List WasteItem).eraseIdx ((0 : Int)).toNat)
    ∨ (∃ id q, envOK7.insertRes = .ok id
       ∧ goParseFloat TV.textFields.empty.f1 = some q
       ∧ ([StoreCall.delete 1] : List StoreCall)
           = [.insert TV.textFields.empty.f0 q TV.textFields.empty.f2
               TV.textFields.empty.f3 TV.textFields.empty.f4]) :=
  spec_C7 envOK7 ⟨[itemA], 0, TV.textFields.empty, .normal, none, 0, 0⟩
    ⟨[], -1, TV.textFields.empty, .normal, none, 0, 0⟩ "d" [.delete 1]
    (by decide) (by decide)

/-- C9, amended: the last error lives in a single optional slot, so errors
never stack; a newly raised error (invalid quantity, delete failure,
insert failure) overwrites the slot whatever it held before; and the slot
is cleared exactly by a successful quantity parse on confirm in the
quantity mode of the string-input variant, not by every successful
state-changing transition. -/
theorem spec_C9 (env : Env) (m m' : SV.model) (e : String) (cs : List StoreCall)
    (hstep : SV.Update env m e = some (m', cs)) :
    (∀ x, m.err = some x → m'.err = none →
       m.inputmode = .addingQuantity ∧ e = "enter" ∧ (goParseFloat m.input).isSome)
    ∧ (m.inputmode = .addingQuantity → e = "enter" → goParseFloat m.input = none →
       m'.err = some .invalidQuantity)
    ∧ (∀ q, m.inputmode = .addingQuantity → e = "enter" → goParseFloat m.input = some q →
       m.waste ≠ [] → m'.err = none)
    ∧ (m.inputmode = .normal → e = "d" → env.deleteRes = .error () →
       0 ≤ m.cursor → m.cursor < m.waste.length → m'.err = some .deleteFailed)
    ∧ (m.inputmode = .addingMethod → e = "enter" → env.insertRes = .error () →
       m.waste ≠ [] → m'.err = some .addFailed) := by
  refine ⟨fun x hx hn => sv_err_cleared env m m' e cs x hstep hx hn, ?_, ?_, ?_, ?_⟩
  · intro hmode he hq
    obtain ⟨ws, c, i, im, er⟩ := m
    simp only at hmode hq
    subst hmode
    subst he
    have heq : SV.Update env ⟨ws, c, i, .addingQuantity, er⟩ "enter"
        = some (⟨ws, c, "", .addingQuantity, some .invalidQuantity⟩, []) := by
      simp [SV.Update, SV.updateAddingQuantity, hq]
    have h2 := heq.symm.trans hstep
    simp only [Option.some.injEq, Prod.mk.injEq] at h2
    obtain ⟨hm, _⟩ := h2
    subst hm
    rfl
  · intro q hmode he hq hwne
    obtain ⟨ws, c, i, im, er⟩ := m
    simp only at hmode hq hwne
    subst hmode
    subst he
    have hlast := List.getLast?_eq_getLast ws hwne
    have heq : SV.Update env ⟨ws, c, i, .addingQuantity, er⟩ "enter"
        = some (⟨ws.dropLast ++ [{ ws.getLast hwne with quantity := q }], c, "",
                 .addingWasteType, none⟩, []) := by
      simp [SV.Update, SV.updateAddingQuantity, hq, goModifyLast, hlast]
    have h2 := heq.symm.trans hstep
    simp only [Option.some.injEq, Prod.mk.injEq] at h2
    obtain ⟨hm, _⟩ := h2
    subst hm
    rfl
  · intro hmode he hdel h0 hl
    obtain ⟨ws, c, i, im, er⟩ := m
    simp only at hmode h0 hl
    subst hmode
    subst he
    have hcn : c.toNat < ws.length := by omega
    have hlen : 0 < ws.length := by omega
    have hidx : goIndex ws c = some (ws.get ⟨c.toNat, hcn⟩) := by
      simp [goIndex, h0, List.get?_eq_get hcn]
    have heq : SV.Update env ⟨ws, c, i, .normal, er⟩ "d"
        = some (⟨ws, c, i, .normal, some .deleteFailed⟩,
                [.delete (ws.get ⟨c.toNat, hcn⟩).id]) := by
      simp [SV.Update, SV.updateNormal, hlen, hidx, hdel]
    have h2 := heq.symm.trans hstep
    simp only [Option.some.injEq, Prod.mk.injEq] at h2
    obtain ⟨hm, _⟩ := h2
    subst hm
    rfl
  · intro hmode he hins hwne
    obtain ⟨ws, c, i, im, er⟩ := m
    simp only at hmode hwne
    subst hmode
    subst he
    have hlast := List.getLast?_eq_getLast ws hwne
    have heq : SV.Update env ⟨ws, c, i, .addingMethod, er⟩ "enter"
        = some (⟨ws.dropLast ++ [{ ws.getLast hwne with method := i }], c, "",
                 .normal, some .addFailed⟩,
                [.insert (ws.getLast hwne).name (ws.getLast hwne).quantity
                  (ws.getLast hwne).wasteType (ws.getLast hwne).location i]) := by
      simp [SV.Update, SV.updateAddingText, goModifyLast, hlast, List.getLast?_concat,
            SV.addWasteItem, hins]
    have h2 := heq.symm.trans hstep
    simp only [Option.some.injEq, Prod.mk.injEq] at h2
    obtain ⟨hm, _⟩ := h2
    subst hm
    rfl

/-- C9 witness: at a concrete quantity-mode state holding a previous
delete-failure error with unparseable text "abc", the step keeps a single
error slot: the invalid-quantity error overwrites the old one. -/
theorem spec_C9_witness :
    (∀ x, (some WErr.deleteFailed : Option WErr) = some x →
       (some WErr.invalidQuantity : Option WErr) = none →
       (inputmode.addingQuantity = .addingQuantity ∧ ("enter" : String) = "enter"
         ∧ (goParseFloat "abc").isSome))
    ∧ (inputmode.addingQuantity = .addingQuantity → ("enter" : String) = "enter" →
       goParseFloat "abc" = none →
       (⟨[itemA], 0, "", .addingQuantity, some .invalidQuantity⟩ : SV.model).err
         = some .invalidQuantity)
    ∧ (∀ q, inputmode.addingQuantity = .addingQuantity → ("enter" : String) = "enter" →
       goParseFloat "abc" = some q → ([itemA] : List WasteItem) ≠ [] →
       (⟨[itemA], 0, "", .addingQuantity, some .invalidQuantity⟩ : SV.model).err = none)
    ∧ (inputmode.addingQuantity = .normal → ("enter" : String) = "d" →
       envAllFail.deleteRes = .error () → (0 : Int) ≤ 0 →
       (0 : Int) < ([itemA] : List WasteItem).length →
       (⟨[itemA], 0, "", .addingQuantity, some .invalidQuantity⟩ : SV.model).err
         = some .deleteFailed)
    ∧ (inputmode.addingQuantity = .addingMethod → ("enter" : String) = "enter" →
       envAllFail.insertRes = .error () → ([itemA] : List WasteItem) ≠ [] →
       (⟨[itemA], 0, "", .addingQuantity, some .invalidQuantity⟩ : SV.model).err
         = some .addFailed) := by
  have h := spec_C9 envAllFail
    ⟨[itemA], 0, "abc", .addingQuantity, some .deleteFailed⟩
    ⟨[itemA], 0, "", .addingQuantity, some .invalidQuantity⟩
    "enter" [] (by decide)
  exact h

/-- C8: the cursor-validity invariant fails on a reachable state of the
string-input variant.  Starting from one item with cursorIndex 0, a
successful delete empties the list and sets cursorIndex to -1; adding a
new item afterwards leaves the list non-empty with cursorIndex still -1,
and a subsequent delete key indexes waste[-1] and panics (run = none). -/
theorem spec_C8 :
    SV.run envOK7 ⟨[itemA], 0, "", .normal, none⟩ ["d", "a", "x", "enter", "esc"]
      = some (⟨[⟨0, "x", 0, "", "", ""⟩], -1, "", .normal, none⟩, [.delete 1])
    ∧ SV.run envOK7 ⟨[itemA], 0, "", .normal, none⟩ ["d", "a", "x", "enter", "esc", "d"]
      = none := by
  constructor <;> decide

/-- C9, counterexample: in the string-input variant a failed delete sets
the last error, and the immediately following successful state-changing
transition (move-down, which moves the cursor from 0 to 1) does not clear
it: the error slot still holds the delete failure afterwards. -/
theorem spec_C9_counterexample :
    SV.run envAllFail ⟨[itemA, itemB], 0, "", .normal, none⟩ ["d", "j"]
      = some (⟨[itemA, itemB], 1, "", .normal, some .deleteFailed⟩, [.delete 1]) := by
  decide

/-- C10: in the textinput variant, the success path of submitWasteItem
writes the new item at index len(waste)-1; on an empty item list this
write is out of bounds, so a submission whose quantity parses and whose
store insert succeeds panics (returns none) instead of completing. -/
theorem spec_C10 (env : Env) (m : TV.model) (q : Rat) (id : Int)
    (hw : m.waste = []) (hq : goParseFloat m.inputs.f1 = some q)
    (hins : env.insertRes = .ok id) :
    TV.submitWasteItem env m = none := by
  simp [TV.submitWasteItem, TV.addWasteItem, hq, hins, hw, goSetLast]

/-- C10 witness: the panic at a concrete submission state with an empty
list, quantity text "3.2" and a store that assigns id 7. -/
theorem spec_C10_witness :
    goParseFloat "3.2" = some (mkRat 16 5)
    ∧ envOK7.insertRes = .ok 7
    ∧ TV.submitWasteItem envOK7
        ⟨[], 0, ⟨"Oil", "3.2", "Liquid", "Bay1", "Incinerate"⟩, .addingName, none, 0, 4⟩
      = none :=
  ⟨by decide, rfl,
   spec_C10 envOK7
     ⟨[], 0, ⟨"Oil", "3.2", "Liquid", "Bay1", "Incinerate"⟩, .addingName, none, 0, 4⟩
     (mkRat 16 5) 7 rfl (by decide) rfl⟩

end WMTui
